import Mathlib

/-!
Verification of the main environment of dozer's LMDB record cache
(`dozer-cache/src/cache/lmdb/cache/main_environment.rs`).

The four LMDB sub-stores are modelled as pure data: association lists for
the maps, a list for the set, a natural number for the counter.  Each
public method of `MainEnvironment` is translated into a Lean function that
takes the transaction state (the whole environment contents) and returns
the updated state together with an outcome.  The Rust `panic!` branches
are modelled by a distinct `Outcome.fatal` constructor; `Result::Err` by
`Outcome.error`.
-/

/-- Field values are opaque to the main environment: it only clones them and
compares the encoded primary key for equality.  We model a field value as a
natural number. -/
abbrev FieldValue := Nat

/-- A record: an ordered vector of field values plus a nullable version.
The schema identifier is omitted: it is only touched by the debug-build
consistency check, which is compiled out in release builds. -/
structure Record where
  values : List FieldValue
  version : Option Nat
deriving DecidableEq, Repr

/-- A schema, reduced to the part the main environment reads: the primary
key index positions. -/
structure Schema where
  primary_index : List Nat
deriving DecidableEq, Repr

/-- Modelled from the spec: `Schema::is_append_only` lives in the external
`dozer_types` crate; the spec says it is "true iff no primary key is
defined". -/
def Schema.is_append_only (schema : Schema) : Bool :=
  schema.primary_index.isEmpty

/-- Modelled from the spec: `index::get_primary_key` is not under `src/`.
The spec describes it as "a deterministic byte encoding of the tuple of
values at the schema's primary-index positions", treated as opaque bytes
compared only for equality.  We model the key as the projected tuple
itself, which is deterministic and preserves equality of projections. -/
def get_primary_key (primary_index : List Nat) (values : List FieldValue) : List FieldValue :=
  primary_index.filterMap (fun i => values.get? i)

/-- The `RecordMetadata` struct from the source: stable record id, latest version,
and the operation id of the latest `Insert` (`none` if deleted). -/
structure RecordMetadata where
  id : Nat
  version : Nat
  insert_operation_id : Option Nat
deriving DecidableEq, Repr

/-- The `Operation` enum stored in the operation log. -/
inductive Operation where
  | Delete (operation_id : Nat)
  | Insert (record_id : Nat) (record : Record)
deriving DecidableEq, Repr

/-- The two recoverable cache errors that escape the main environment. -/
inductive CacheError where
  | PrimaryKeyNotFound
  | PrimaryKeyExists
deriving DecidableEq, Repr

/-- Outcome of a call: success, a recoverable `CacheError`, or one of the
`panic!("Inconsistent state: ...")` branches (`fatal`). -/
inductive Outcome (α : Type) where
  | ok (a : α)
  | error (e : CacheError)
  | fatal
deriving DecidableEq, Repr

/-- Modelled from the spec: `RecordWithId` lives in `crate::cache`; it
pairs the record id with the record. -/
structure RecordWithId where
  id : Nat
  record : Record
deriving DecidableEq, Repr

/-! ### Association-list model of the LMDB sub-stores -/

/-- Model of `LmdbMap::get`. -/
def alistGet {κ α : Type} [DecidableEq κ] : List (κ × α) → κ → Option α
  | [], _ => none
  | (k', v) :: rest, k => if k' = k then some v else alistGet rest k

/-- Model of `LmdbMap::insert_overwrite`: replace the binding if the key exists,
otherwise add a new one. -/
def alistPut {κ α : Type} [DecidableEq κ] : List (κ × α) → κ → α → List (κ × α)
  | [], k, v => [(k, v)]
  | (k', v') :: rest, k, v =>
    if k' = k then (k, v) :: rest else (k', v') :: alistPut rest k v

/-- Model of `LmdbMap::insert`: returns `none` when the key already exists (the
callers treat that as a fatal inconsistency). -/
def alistInsertNew {κ α : Type} [DecidableEq κ] (l : List (κ × α)) (k : κ) (v : α) :
    Option (List (κ × α)) :=
  if (alistGet l k).isSome then none else some (l ++ [(k, v)])

/-- Model of `LmdbSet::insert`: returns `none` when the element is already present. -/
def setInsertNew (s : List Nat) (k : Nat) : Option (List Nat) :=
  if k ∈ s then none else some (s ++ [k])

/-- Model of `LmdbSet::remove`: returns `none` when the element is absent. -/
def setRemove (s : List Nat) (k : Nat) : Option (List Nat) :=
  if k ∈ s then some (s.erase k) else none

/-! ### The main environment -/

/-- The contents of the four sub-stores, as seen inside one transaction. -/
structure MainEnvironment where
  /-- Record primary key -> RecordMetadata, empty if schema has no primary key. -/
  primary_key_to_metadata : List (List FieldValue × RecordMetadata)
  /-- Operation ids of latest `Insert`s. -/
  present_operation_ids : List Nat
  /-- The next operation id. -/
  next_operation_id : Nat
  /-- Operation id -> operation. -/
  operation_id_to_operation : List (Nat × Operation)
deriving DecidableEq, Repr

/-- A freshly created environment: all four sub-stores empty. -/
def MainEnvironment.empty : MainEnvironment :=
  { primary_key_to_metadata := []
    present_operation_ids := []
    next_operation_id := 0
    operation_id_to_operation := [] }

def INITIAL_RECORD_VERSION : Nat := 1

/-- Model of `MainEnvironment::get_by_operation_id_unchecked`: fetch the log entry;
anything but an `Insert` is the "Inconsistent state" panic. -/
def MainEnvironment.get_by_operation_id_unchecked (env : MainEnvironment)
    (operation_id : Nat) : Outcome RecordWithId :=
  match alistGet env.operation_id_to_operation operation_id with
  | some (Operation.Insert record_id record) => .ok ⟨record_id, record⟩
  | _ => .fatal

/-- Model of `MainEnvironment::get`. -/
def MainEnvironment.get (env : MainEnvironment) (key : List FieldValue) :
    Outcome RecordWithId :=
  match alistGet env.primary_key_to_metadata key with
  | none => .error .PrimaryKeyNotFound
  | some metadata =>
    match metadata.insert_operation_id with
    | none => .error .PrimaryKeyNotFound
    | some insert_operation_id => env.get_by_operation_id_unchecked insert_operation_id

/-- Model of `MainEnvironment::get_by_operation_id`. -/
def MainEnvironment.get_by_operation_id (env : MainEnvironment) (operation_id : Nat)
    (schema_is_append_only : Bool) : Outcome (Option RecordWithId) :=
  if !schema_is_append_only ∧ operation_id ∉ env.present_operation_ids then
    .ok none
  else
    match env.get_by_operation_id_unchecked operation_id with
    | .ok r => .ok (some r)
    | .error e => .error e
    | .fatal => .fatal

/-- Model of `MainEnvironment::insert`.  Returns the outcome (on success, the pair
`(record_id, operation_id)` together with the record as mutated, i.e. with
its version set) and the transaction state after the call. -/
def MainEnvironment.insert (env : MainEnvironment) (record : Record) (schema : Schema) :
    Outcome ((Nat × Nat) × Record) × MainEnvironment :=
  -- Generation operation id.
  let operation_id := env.next_operation_id
  let env := { env with next_operation_id := env.next_operation_id + 1 }
  if schema.is_append_only then
    -- If the record has no primary key, record id is operation id.
    let record := { record with version := some INITIAL_RECORD_VERSION }
    let record_id := operation_id
    match alistInsertNew env.operation_id_to_operation operation_id
        (Operation.Insert record_id record) with
    | none => (.fatal, env)
    | some log =>
      (.ok ((record_id, operation_id), record),
       { env with operation_id_to_operation := log })
  else
    let primary_key := get_primary_key schema.primary_index record.values
    -- Get or generate record id from `primary_key_to_metadata`.
    let step : Outcome (Nat × Nat) :=
      match alistGet env.primary_key_to_metadata primary_key with
      | none => .ok (env.primary_key_to_metadata.length, INITIAL_RECORD_VERSION)
      | some metadata =>
        match metadata.insert_operation_id with
        | some _ => .error .PrimaryKeyExists
        | none => .ok (metadata.id, metadata.version + 1)
    match step with
    | .error e => (.error e, env)
    | .fatal => (.fatal, env)
    | .ok (record_id, record_version) =>
      let pkm := alistPut env.primary_key_to_metadata primary_key
        { id := record_id, version := record_version,
          insert_operation_id := some operation_id }
      match setInsertNew env.present_operation_ids operation_id with
      | none => (.fatal, { env with primary_key_to_metadata := pkm })
      | some present =>
        let record := { record with version := some record_version }
        match alistInsertNew env.operation_id_to_operation operation_id
            (Operation.Insert record_id record) with
        | none =>
          (.fatal, { env with primary_key_to_metadata := pkm,
                              present_operation_ids := present })
        | some log =>
          (.ok ((record_id, operation_id), record),
           { env with primary_key_to_metadata := pkm,
                      present_operation_ids := present,
                      operation_id_to_operation := log })

/-- Model of `MainEnvironment::delete`.  Returns the outcome (on success, the record
version and the deleted insert operation id) and the state after the call. -/
def MainEnvironment.delete (env : MainEnvironment) (primary_key : List FieldValue) :
    Outcome (Nat × Nat) × MainEnvironment :=
  match alistGet env.primary_key_to_metadata primary_key with
  | some { id := record_id, version := record_version,
           insert_operation_id := some insert_operation_id } =>
    let pkm := alistPut env.primary_key_to_metadata primary_key
      { id := record_id, version := record_version, insert_operation_id := none }
    match setRemove env.present_operation_ids insert_operation_id with
    | none => (.fatal, { env with primary_key_to_metadata := pkm })
    | some present =>
      let operation_id := env.next_operation_id
      match alistInsertNew env.operation_id_to_operation operation_id
          (Operation.Delete insert_operation_id) with
      | none =>
        (.fatal, { env with primary_key_to_metadata := pkm,
                            present_operation_ids := present,
                            next_operation_id := operation_id + 1 })
      | some log =>
        (.ok (record_version, insert_operation_id),
         { env with primary_key_to_metadata := pkm,
                    present_operation_ids := present,
                    next_operation_id := operation_id + 1,
                    operation_id_to_operation := log })
  | _ => (.error .PrimaryKeyNotFound, env)

/-! ### Operation sequences -/

/-- A public mutation request. -/
inductive CacheOp where
  | insertOp (record : Record)
  | deleteOp (primary_key : List FieldValue)
deriving DecidableEq, Repr

/-- Apply one request; `none` when the call does not succeed. -/
def applyOp (schema : Schema) (env : MainEnvironment) : CacheOp → Option MainEnvironment
  | .insertOp r =>
    match env.insert r schema with
    | (.ok _, env') => some env'
    | _ => none
  | .deleteOp pk =>
    match env.delete pk with
    | (.ok _, env') => some env'
    | _ => none

/-- Run a sequence of requests, all of which must succeed. -/
def runOps (schema : Schema) : MainEnvironment → List CacheOp → Option MainEnvironment
  | env, [] => some env
  | env, op :: rest =>
    match applyOp schema env op with
    | none => none
    | some env' => runOps schema env' rest

/-! ### Byte codec for `RecordMetadata` -/

/-- Big-endian bytes of a `u64`, as in `u64::to_be_bytes`. -/
def u64_be_bytes (n : Nat) : List Nat :=
  [n / 256 ^ 7 % 256, n / 256 ^ 6 % 256, n / 256 ^ 5 % 256, n / 256 ^ 4 % 256,
   n / 256 ^ 3 % 256, n / 256 ^ 2 % 256, n / 256 % 256, n % 256]

/-- Big-endian bytes of a `u32`, as in `u32::to_be_bytes`. -/
def u32_be_bytes (n : Nat) : List Nat :=
  [n / 256 ^ 3 % 256, n / 256 ^ 2 % 256, n / 256 % 256, n % 256]

/-- Recompose a big-endian byte sequence, as in `from_be_bytes`. -/
def from_be_bytes (bytes : List Nat) : Nat :=
  bytes.foldl (fun acc b => acc * 256 + b) 0

/-- The `Encode` impl for `RecordMetadata`: a fixed 21-byte buffer,
initialised to zeros, with the id at offsets 0-7, the version at 8-11, the
presence tag at 12 and the insert operation id at 13-20. -/
def RecordMetadata.encode (m : RecordMetadata) : List Nat :=
  u64_be_bytes m.id ++ u32_be_bytes m.version ++
    match m.insert_operation_id with
    | some insert_operation_id => 1 :: u64_be_bytes insert_operation_id
    | none => 0 :: u64_be_bytes 0

/-- The `Decode` impl for `RecordMetadata`.  The Rust code slices
`bytes[0..8]`, `bytes[8..12]`, `bytes[12]` and `bytes[13..21]`, which
panics when fewer than 21 bytes are given; that panic is modelled as
`none`. -/
def RecordMetadata.decode (bytes : List Nat) : Option RecordMetadata :=
  if bytes.length < 21 then none
  else some
    { id := from_be_bytes (bytes.take 8)
      version := from_be_bytes ((bytes.drop 8).take 4)
      insert_operation_id :=
        if bytes.getD 12 0 = 1 then
          some (from_be_bytes ((bytes.drop 13).take 8))
        else none }

/-- Invariants that hold in every state reachable from a fresh
environment by successful operations. -/
structure EnvInv (env : MainEnvironment) : Prop where
  log_keys : env.operation_id_to_operation.map Prod.fst = List.range env.next_operation_id
  present_lt : ∀ op ∈ env.present_operation_ids, op < env.next_operation_id
  present_insert : ∀ op ∈ env.present_operation_ids, ∃ rid r,
    alistGet env.operation_id_to_operation op = some (Operation.Insert rid r)
  live_present : ∀ pk m, alistGet env.primary_key_to_metadata pk = some m →
    ∀ op, m.insert_operation_id = some op → op ∈ env.present_operation_ids
  live_inj : ∀ pk₁ pk₂ m₁ m₂ op, alistGet env.primary_key_to_metadata pk₁ = some m₁ →
    alistGet env.primary_key_to_metadata pk₂ = some m₂ →
    m₁.insert_operation_id = some op → m₂.insert_operation_id = some op → pk₁ = pk₂

/-! ### Association list lemmas -/

theorem alistGet_append {κ α : Type} [DecidableEq κ] (l₁ l₂ : List (κ × α)) (k : κ) :
    alistGet (l₁ ++ l₂) k =
      match alistGet l₁ k with
      | some v => some v
      | none => alistGet l₂ k := by
  induction l₁ with
  | nil => simp [alistGet]
  | cons p rest ih =>
    obtain ⟨k', v⟩ := p
    by_cases h : k' = k <;> simp [alistGet, h, ih]

theorem alistGet_append_left {κ α : Type} [DecidableEq κ] {l₁ : List (κ × α)} {k : κ} {v : α}
    (l₂ : List (κ × α)) (h : alistGet l₁ k = some v) :
    alistGet (l₁ ++ l₂) k = some v := by
  rw [alistGet_append, h]

theorem alistGet_append_right {κ α : Type} [DecidableEq κ] {l₁ : List (κ × α)} {k : κ}
    (l₂ : List (κ × α)) (h : alistGet l₁ k = none) :
    alistGet (l₁ ++ l₂) k = alistGet l₂ k := by
  rw [alistGet_append, h]

theorem alistGet_singleton {κ α : Type} [DecidableEq κ] (k k' : κ) (v : α) :
    alistGet [(k, v)] k' = if k = k' then some v else none := by
  simp [alistGet]

theorem alistGet_put_self {κ α : Type} [DecidableEq κ] (l : List (κ × α)) (k : κ) (v : α) :
    alistGet (alistPut l k v) k = some v := by
  induction l with
  | nil => simp [alistPut, alistGet]
  | cons p rest ih =>
    obtain ⟨k', v'⟩ := p
    by_cases h : k' = k <;> simp [alistPut, alistGet, h, ih]

theorem alistGet_put_ne {κ α : Type} [DecidableEq κ] (l : List (κ × α)) {k k' : κ} (v : α)
    (h : k ≠ k') : alistGet (alistPut l k v) k' = alistGet l k' := by
  induction l with
  | nil => simp [alistPut, alistGet, h]
  | cons p rest ih =>
    obtain ⟨k'', v'⟩ := p
    by_cases h2 : k'' = k
    · subst h2
      simp [alistPut, alistGet, h]
    · simp [alistPut, alistGet, h2, ih]

theorem alistGet_eq_none_iff {κ α : Type} [DecidableEq κ] (l : List (κ × α)) (k : κ) :
    alistGet l k = none ↔ k ∉ l.map Prod.fst := by
  induction l with
  | nil => simp [alistGet]
  | cons p rest ih =>
    obtain ⟨k', v⟩ := p
    by_cases h : k' = k
    · subst h
      simp [alistGet]
    · simp [alistGet, h, ih, Ne.symm h]

/-! ### Characterization of the mutation paths -/

theorem insert_keyed_ok {env env' : MainEnvironment} {r r' : Record} {schema : Schema}
    {rid oid : Nat}
    (hk : schema.is_append_only = false)
    (h : env.insert r schema = (.ok ((rid, oid), r'), env')) :
    ∃ version : Nat,
      oid = env.next_operation_id ∧
      (match alistGet env.primary_key_to_metadata
          (get_primary_key schema.primary_index r.values) with
       | none =>
         rid = env.primary_key_to_metadata.length ∧ version = INITIAL_RECORD_VERSION
       | some m => m.insert_operation_id = none ∧ rid = m.id ∧ version = m.version + 1) ∧
      r' = { r with version := some version } ∧
      alistGet env.operation_id_to_operation env.next_operation_id = none ∧
      env.next_operation_id ∉ env.present_operation_ids ∧
      env'.next_operation_id = env.next_operation_id + 1 ∧
      env'.primary_key_to_metadata =
        alistPut env.primary_key_to_metadata
          (get_primary_key schema.primary_index r.values)
          { id := rid, version := version, insert_operation_id := some env.next_operation_id } ∧
      env'.present_operation_ids = env.present_operation_ids ++ [env.next_operation_id] ∧
      env'.operation_id_to_operation =
        env.operation_id_to_operation ++
          [(env.next_operation_id, Operation.Insert rid r')] := by
  by_cases hp : env.next_operation_id ∈ env.present_operation_ids
  · rcases hmem : alistGet env.primary_key_to_metadata
      (get_primary_key schema.primary_index r.values) with _ | m
    · simp [MainEnvironment.insert, hk, hmem, setInsertNew, hp] at h
    · rcases hio : m.insert_operation_id with _ | io
      · simp [MainEnvironment.insert, hk, hmem, hio, setInsertNew, hp] at h
      · simp [MainEnvironment.insert, hk, hmem, hio, setInsertNew, hp] at h
  · rcases hl : alistGet env.operation_id_to_operation env.next_operation_id with _ | op
    · rcases hmem : alistGet env.primary_key_to_metadata
        (get_primary_key schema.primary_index r.values) with _ | m
      · refine ⟨INITIAL_RECORD_VERSION, ?_⟩
        simp [MainEnvironment.insert, hk, hmem, setInsertNew, hp, alistInsertNew, hl] at h
        obtain ⟨⟨⟨h1, h2⟩, h3⟩, h4⟩ := h
        subst h1; subst h2; subst h3; subst h4
        simp [hmem, hl, hp]
      · rcases hio : m.insert_operation_id with _ | io
        · refine ⟨m.version + 1, ?_⟩
          simp [MainEnvironment.insert, hk, hmem, hio, setInsertNew, hp, alistInsertNew, hl] at h
          obtain ⟨⟨⟨h1, h2⟩, h3⟩, h4⟩ := h
          subst h1; subst h2; subst h3; subst h4
          simp [hmem, hio, hl, hp]
        · simp [MainEnvironment.insert, hk, hmem, hio] at h
    · rcases hmem : alistGet env.primary_key_to_metadata
        (get_primary_key schema.primary_index r.values) with _ | m
      · simp [MainEnvironment.insert, hk, hmem, setInsertNew, hp, alistInsertNew, hl] at h
      · rcases hio : m.insert_operation_id with _ | io
        · simp [MainEnvironment.insert, hk, hmem, hio, setInsertNew, hp, alistInsertNew, hl] at h
        · simp [MainEnvironment.insert, hk, hmem, hio] at h

theorem insert_append_only_ok {env env' : MainEnvironment} {r r' : Record} {schema : Schema}
    {rid oid : Nat}
    (hk : schema.is_append_only = true)
    (h : env.insert r schema = (.ok ((rid, oid), r'), env')) :
    rid = env.next_operation_id ∧ oid = env.next_operation_id ∧
    r' = { r with version := some INITIAL_RECORD_VERSION } ∧
    alistGet env.operation_id_to_operation env.next_operation_id = none ∧
    env'.next_operation_id = env.next_operation_id + 1 ∧
    env'.primary_key_to_metadata = env.primary_key_to_metadata ∧
    env'.present_operation_ids = env.present_operation_ids ∧
    env'.operation_id_to_operation =
      env.operation_id_to_operation ++
        [(env.next_operation_id, Operation.Insert env.next_operation_id r')] := by
  rcases hl : alistGet env.operation_id_to_operation env.next_operation_id with _ | op
  · simp [MainEnvironment.insert, hk, alistInsertNew, hl] at h
    obtain ⟨⟨⟨h1, h2⟩, h3⟩, h4⟩ := h
    subst h1; subst h2; subst h3; subst h4
    simp [hl]
  · simp [MainEnvironment.insert, hk, alistInsertNew, hl] at h

theorem insert_append_only_of_fresh {env : MainEnvironment} {schema : Schema} (r : Record)
    (hk : schema.is_append_only = true)
    (hl : alistGet env.operation_id_to_operation env.next_operation_id = none) :
    env.insert r schema =
      (.ok ((env.next_operation_id, env.next_operation_id),
            { r with version := some INITIAL_RECORD_VERSION }),
       { env with
          next_operation_id := env.next_operation_id + 1
          operation_id_to_operation :=
            env.operation_id_to_operation ++
              [(env.next_operation_id,
                Operation.Insert env.next_operation_id
                  { r with version := some INITIAL_RECORD_VERSION })] }) := by
  simp [MainEnvironment.insert, hk, alistInsertNew, hl]

theorem insert_live_exists {env : MainEnvironment} {r : Record} {schema : Schema}
    {m : RecordMetadata}
    (hk : schema.is_append_only = false)
    (hm : alistGet env.primary_key_to_metadata
        (get_primary_key schema.primary_index r.values) = some m)
    (hlive : m.insert_operation_id.isSome) :
    env.insert r schema =
      (.error .PrimaryKeyExists,
       { env with next_operation_id := env.next_operation_id + 1 }) := by
  rcases hio : m.insert_operation_id with _ | io
  · rw [hio] at hlive
    simp at hlive
  · simp [MainEnvironment.insert, hk, hm, hio]

theorem delete_ok {env env' : MainEnvironment} {pk : List FieldValue} {ver op : Nat}
    (h : env.delete pk = (.ok (ver, op), env')) :
    ∃ rid,
      alistGet env.primary_key_to_metadata pk =
        some { id := rid, version := ver, insert_operation_id := some op } ∧
      op ∈ env.present_operation_ids ∧
      alistGet env.operation_id_to_operation env.next_operation_id = none ∧
      env'.next_operation_id = env.next_operation_id + 1 ∧
      env'.primary_key_to_metadata =
        alistPut env.primary_key_to_metadata pk
          { id := rid, version := ver, insert_operation_id := none } ∧
      env'.present_operation_ids = env.present_operation_ids.erase op ∧
      env'.operation_id_to_operation =
        env.operation_id_to_operation ++ [(env.next_operation_id, Operation.Delete op)] := by
  rcases hm : alistGet env.primary_key_to_metadata pk with _ | m
  · simp [MainEnvironment.delete, hm] at h
  · obtain ⟨rid0, ver0, iop⟩ := m
    rcases iop with _ | op0
    · simp [MainEnvironment.delete, hm] at h
    · by_cases hp : op0 ∈ env.present_operation_ids
      · rcases hl : alistGet env.operation_id_to_operation env.next_operation_id with _ | o
        · simp [MainEnvironment.delete, hm, setRemove, hp, alistInsertNew, hl] at h
          obtain ⟨⟨h1, h2⟩, h4⟩ := h
          subst h1; subst h2; subst h4
          exact ⟨rid0, rfl, hp, rfl, by simp, by simp, by simp, by simp⟩
        · simp [MainEnvironment.delete, hm, setRemove, hp, alistInsertNew, hl] at h
      · simp [MainEnvironment.delete, hm, setRemove, hp] at h

theorem delete_ok_of_live {env : MainEnvironment} {pk : List FieldValue} {rid ver op : Nat}
    (hm : alistGet env.primary_key_to_metadata pk =
        some { id := rid, version := ver, insert_operation_id := some op })
    (hp : op ∈ env.present_operation_ids)
    (hl : alistGet env.operation_id_to_operation env.next_operation_id = none) :
    env.delete pk =
      (.ok (ver, op),
       { env with
          next_operation_id := env.next_operation_id + 1
          primary_key_to_metadata :=
            alistPut env.primary_key_to_metadata pk
              { id := rid, version := ver, insert_operation_id := none }
          present_operation_ids := env.present_operation_ids.erase op
          operation_id_to_operation :=
            env.operation_id_to_operation ++
              [(env.next_operation_id, Operation.Delete op)] }) := by
  simp [MainEnvironment.delete, hm, setRemove, hp, alistInsertNew, hl]

theorem delete_not_found {env : MainEnvironment} {pk : List FieldValue}
    (hm : match alistGet env.primary_key_to_metadata pk with
          | none => True
          | some m => m.insert_operation_id = none) :
    env.delete pk = (.error .PrimaryKeyNotFound, env) := by
  rcases h : alistGet env.primary_key_to_metadata pk with _ | m
  · simp [MainEnvironment.delete, h]
  · rw [h] at hm
    obtain ⟨rid, ver, iop⟩ := m
    simp at hm
    subst hm
    simp [MainEnvironment.delete, h]

/-! ### Invariants of reachable states -/

theorem EnvInv_empty : EnvInv MainEnvironment.empty := by
  constructor <;> simp [MainEnvironment.empty, alistGet]

theorem EnvInv_log_fresh {env : MainEnvironment} (inv : EnvInv env) :
    alistGet env.operation_id_to_operation env.next_operation_id = none := by
  rw [alistGet_eq_none_iff, inv.log_keys]
  simp

theorem applyOp_counter {schema : Schema} {env env' : MainEnvironment} {op : CacheOp}
    (h : applyOp schema env op = some env') :
    env'.next_operation_id = env.next_operation_id + 1 := by
  cases op with
  | insertOp r =>
    simp only [applyOp] at h
    rcases he : env.insert r schema with ⟨out, e2⟩
    rw [he] at h
    rcases out with a | e | _
    · obtain ⟨⟨rid, oid⟩, r'⟩ := a
      simp at h
      subst h
      by_cases hk : schema.is_append_only
      · exact (insert_append_only_ok hk he).2.2.2.2.1
      · obtain ⟨v, hv⟩ := insert_keyed_ok (Bool.eq_false_iff.mpr hk) he
        exact hv.2.2.2.2.2.1
    · simp at h
    · simp at h
  | deleteOp pk =>
    simp only [applyOp] at h
    rcases he : env.delete pk with ⟨out, e2⟩
    rw [he] at h
    rcases out with a | e | _
    · obtain ⟨ver, opid⟩ := a
      simp at h
      subst h
      obtain ⟨rid, hv⟩ := delete_ok he
      exact hv.2.2.2.1
    · simp at h
    · simp at h

theorem EnvInv_applyOp {schema : Schema} {env env' : MainEnvironment} {op : CacheOp}
    (inv : EnvInv env) (h : applyOp schema env op = some env') : EnvInv env' := by
  cases op with
  | insertOp r =>
    simp only [applyOp] at h
    rcases he : env.insert r schema with ⟨out, e2⟩
    rw [he] at h
    rcases out with a | e | _
    · obtain ⟨⟨rid, oid⟩, r'⟩ := a
      simp at h
      subst h
      by_cases hk : schema.is_append_only
      · obtain ⟨h1, h2, h3, hl, c1, c2, c3, c4⟩ := insert_append_only_ok hk he
        constructor
        · rw [c4, c1, List.map_append, inv.log_keys]
          simp [List.range_succ]
        · intro o ho
          rw [c3] at ho
          rw [c1]
          have := inv.present_lt o ho
          omega
        · intro o ho
          rw [c3] at ho
          rw [c4]
          obtain ⟨rid2, r2, hlook⟩ := inv.present_insert o ho
          exact ⟨rid2, r2, alistGet_append_left _ hlook⟩
        · intro pk2 m2 hm2 o ho2
          rw [c2] at hm2
          rw [c3]
          exact inv.live_present pk2 m2 hm2 o ho2
        · intro pk1 pk2 m1 m2 o hm1 hm2 ho1 ho2
          rw [c2] at hm1 hm2
          exact inv.live_inj pk1 pk2 m1 m2 o hm1 hm2 ho1 ho2
      · obtain ⟨v, hoid, hmatch, hr', hl, hp, c1, c2, c3, c4⟩ :=
          insert_keyed_ok (Bool.eq_false_iff.mpr hk) he
        constructor
        · rw [c4, c1, List.map_append, inv.log_keys]
          simp [List.range_succ]
        · intro o ho
          rw [c3] at ho
          rw [c1]
          rcases List.mem_append.mp ho with ho' | ho'
          · have := inv.present_lt o ho'
            omega
          · simp at ho'
            omega
        · intro o ho
          rw [c3] at ho
          rw [c4]
          rcases List.mem_append.mp ho with ho' | ho'
          · obtain ⟨rid2, r2, hlook⟩ := inv.present_insert o ho'
            exact ⟨rid2, r2, alistGet_append_left _ hlook⟩
          · simp at ho'
            subst ho'
            refine ⟨rid, r', ?_⟩
            rw [alistGet_append_right _ hl, alistGet_singleton]
            simp
        · intro pk2 m2 hm2 o ho2
          rw [c2] at hm2
          rw [c3]
          by_cases hpk : get_primary_key schema.primary_index r.values = pk2
          · subst hpk
            rw [alistGet_put_self] at hm2
            injection hm2 with hm2
            subst hm2
            simp at ho2
            simp [ho2]
          · rw [alistGet_put_ne _ _ hpk] at hm2
            exact List.mem_append_left _ (inv.live_present pk2 m2 hm2 o ho2)
        · intro pk1 pk2 m1 m2 o hm1 hm2 ho1 ho2
          rw [c2] at hm1 hm2
          by_cases ha : get_primary_key schema.primary_index r.values = pk1 <;>
            by_cases hb : get_primary_key schema.primary_index r.values = pk2
          · rw [← ha, ← hb]
          · subst ha
            rw [alistGet_put_self] at hm1
            injection hm1 with hm1
            subst hm1
            simp at ho1
            rw [alistGet_put_ne _ _ hb] at hm2
            rw [← ho1] at ho2
            exact absurd (inv.live_present pk2 m2 hm2 _ ho2) hp
          · subst hb
            rw [alistGet_put_self] at hm2
            injection hm2 with hm2
            subst hm2
            simp at ho2
            rw [alistGet_put_ne _ _ ha] at hm1
            rw [← ho2] at ho1
            exact absurd (inv.live_present pk1 m1 hm1 _ ho1) hp
          · rw [alistGet_put_ne _ _ ha] at hm1
            rw [alistGet_put_ne _ _ hb] at hm2
            exact inv.live_inj pk1 pk2 m1 m2 o hm1 hm2 ho1 ho2
    · simp at h
    · simp at h
  | deleteOp pk =>
    simp only [applyOp] at h
    rcases he : env.delete pk with ⟨out, e2⟩
    rw [he] at h
    rcases out with a | e | _
    · obtain ⟨ver, opid⟩ := a
      simp at h
      subst h
      obtain ⟨rid, hm, hpres, hl, c1, c2, c3, c4⟩ := delete_ok he
      constructor
      · rw [c4, c1, List.map_append, inv.log_keys]
        simp [List.range_succ]
      · intro o ho
        rw [c3] at ho
        rw [c1]
        have := inv.present_lt o (List.mem_of_mem_erase ho)
        omega
      · intro o ho
        rw [c3] at ho
        rw [c4]
        obtain ⟨rid2, r2, hlook⟩ := inv.present_insert o (List.mem_of_mem_erase ho)
        exact ⟨rid2, r2, alistGet_append_left _ hlook⟩
      · intro pk2 m2 hm2 o ho2
        rw [c2] at hm2
        rw [c3]
        by_cases hpk : pk = pk2
        · subst hpk
          rw [alistGet_put_self] at hm2
          injection hm2 with hm2
          subst hm2
          simp at ho2
        · rw [alistGet_put_ne _ _ hpk] at hm2
          have hmem := inv.live_present pk2 m2 hm2 o ho2
          have hne : o ≠ opid := by
            intro hoe
            subst hoe
            exact hpk (inv.live_inj pk pk2 _ m2 o hm hm2 rfl ho2)
          exact (List.mem_erase_of_ne hne).mpr hmem
      · intro pk1 pk2 m1 m2 o hm1 hm2 ho1 ho2
        rw [c2] at hm1 hm2
        by_cases ha : pk = pk1
        · subst ha
          rw [alistGet_put_self] at hm1
          injection hm1 with hm1
          subst hm1
          simp at ho1
        · by_cases hb : pk = pk2
          · subst hb
            rw [alistGet_put_self] at hm2
            injection hm2 with hm2
            subst hm2
            simp at ho2
          · rw [alistGet_put_ne _ _ ha] at hm1
            rw [alistGet_put_ne _ _ hb] at hm2
            exact inv.live_inj pk1 pk2 m1 m2 o hm1 hm2 ho1 ho2
    · simp at h
    · simp at h

theorem EnvInv_runOps {schema : Schema} {env env' : MainEnvironment} {ops : List CacheOp}
    (inv : EnvInv env) (h : runOps schema env ops = some env') :
    EnvInv env' ∧ env'.next_operation_id = env.next_operation_id + ops.length := by
  induction ops generalizing env with
  | nil =>
    simp [runOps] at h
    subst h
    exact ⟨inv, by simp⟩
  | cons op rest ih =>
    simp only [runOps] at h
    rcases happ : applyOp schema env op with _ | e1
    · rw [happ] at h
      simp at h
    · rw [happ] at h
      obtain ⟨inv2, hc2⟩ := ih (EnvInv_applyOp inv happ) h
      have hc1 := applyOp_counter happ
      refine ⟨inv2, ?_⟩
      rw [hc2, hc1]
      simp
      omega

theorem applyOp_id_stable {schema : Schema} {env env' : MainEnvironment} {op : CacheOp}
    {pk : List FieldValue} {m : RecordMetadata}
    (h : applyOp schema env op = some env')
    (hm : alistGet env.primary_key_to_metadata pk = some m) :
    ∃ m', alistGet env'.primary_key_to_metadata pk = some m' ∧ m'.id = m.id := by
  cases op with
  | insertOp r =>
    simp only [applyOp] at h
    rcases he : env.insert r schema with ⟨out, e2⟩
    rw [he] at h
    rcases out with a | e | _
    · obtain ⟨⟨rid, oid⟩, r'⟩ := a
      simp at h
      subst h
      by_cases hk : schema.is_append_only
      · obtain ⟨h1, h2, h3, hl, c1, c2, c3, c4⟩ := insert_append_only_ok hk he
        exact ⟨m, by rw [c2]; exact hm, rfl⟩
      · obtain ⟨v, hoid, hmatch, hr', hl, hp, c1, c2, c3, c4⟩ :=
          insert_keyed_ok (Bool.eq_false_iff.mpr hk) he
        by_cases hpk : get_primary_key schema.primary_index r.values = pk
        · subst hpk
          rw [hm] at hmatch
          simp at hmatch
          obtain ⟨hnone, hid, hv⟩ := hmatch
          refine ⟨_, by rw [c2]; exact alistGet_put_self _ _ _, ?_⟩
          simp [hid]
        · refine ⟨m, ?_, rfl⟩
          rw [c2, alistGet_put_ne _ _ hpk]
          exact hm
    · simp at h
    · simp at h
  | deleteOp pk0 =>
    simp only [applyOp] at h
    rcases he : env.delete pk0 with ⟨out, e2⟩
    rw [he] at h
    rcases out with a | e | _
    · obtain ⟨ver, opid⟩ := a
      simp at h
      subst h
      obtain ⟨rid, hm0, hpres, hl, c1, c2, c3, c4⟩ := delete_ok he
      by_cases hpk : pk0 = pk
      · subst hpk
        rw [hm] at hm0
        injection hm0 with hm0
        refine ⟨_, by rw [c2]; exact alistGet_put_self _ _ _, ?_⟩
        rw [hm0]
      · refine ⟨m, ?_, rfl⟩
        rw [c2, alistGet_put_ne _ _ hpk]
        exact hm
    · simp at h
    · simp at h

theorem runOps_id_stable {schema : Schema} {env env' : MainEnvironment} {ops : List CacheOp}
    {pk : List FieldValue} {m : RecordMetadata}
    (h : runOps schema env ops = some env')
    (hm : alistGet env.primary_key_to_metadata pk = some m) :
    ∃ m', alistGet env'.primary_key_to_metadata pk = some m' ∧ m'.id = m.id := by
  induction ops generalizing env m with
  | nil =>
    simp [runOps] at h
    subst h
    exact ⟨m, hm, rfl⟩
  | cons op rest ih =>
    simp only [runOps] at h
    rcases happ : applyOp schema env op with _ | e1
    · rw [happ] at h
      simp at h
    · rw [happ] at h
      obtain ⟨m1, hm1, hid1⟩ := applyOp_id_stable happ hm
      obtain ⟨m', hm', hid'⟩ := ih h hm1
      exact ⟨m', hm', by rw [hid', hid1]⟩

theorem runOps_append_only {schema : Schema} {env env' : MainEnvironment} {ops : List CacheOp}
    (hk : schema.is_append_only = true)
    (h : runOps schema env ops = some env')
    (hpk : env.primary_key_to_metadata = [])
    (hpr : env.present_operation_ids = [])
    (hlog : ∀ p ∈ env.operation_id_to_operation, ∃ rec,
      p.2 = Operation.Insert p.1 rec ∧ rec.version = some INITIAL_RECORD_VERSION) :
    env'.primary_key_to_metadata = [] ∧ env'.present_operation_ids = [] ∧
    ∀ p ∈ env'.operation_id_to_operation, ∃ rec,
      p.2 = Operation.Insert p.1 rec ∧ rec.version = some INITIAL_RECORD_VERSION := by
  induction ops generalizing env with
  | nil =>
    simp [runOps] at h
    subst h
    exact ⟨hpk, hpr, hlog⟩
  | cons op rest ih =>
    simp only [runOps] at h
    rcases happ : applyOp schema env op with _ | e1
    · rw [happ] at h
      simp at h
    · rw [happ] at h
      cases op with
      | insertOp r =>
        simp only [applyOp] at happ
        rcases he : env.insert r schema with ⟨out, e2⟩
        rw [he] at happ
        rcases out with a | e | _
        · obtain ⟨⟨rid, oid⟩, r'⟩ := a
          simp at happ
          subst happ
          obtain ⟨h1, h2, h3, hl, c1, c2, c3, c4⟩ := insert_append_only_ok hk he
          apply ih h (by rw [c2, hpk]) (by rw [c3, hpr])
          intro p hp
          rw [c4] at hp
          rcases List.mem_append.mp hp with hp' | hp'
          · exact hlog p hp'
          · simp at hp'
            subst hp'
            exact ⟨r', rfl, by rw [h3]⟩
        · simp at happ
        · simp at happ
      | deleteOp pk0 =>
        exfalso
        simp only [applyOp] at happ
        have hdel : env.delete pk0 = (.error .PrimaryKeyNotFound, env) :=
          delete_not_found (by simp [hpk, alistGet])
        rw [hdel] at happ
        simp at happ

theorem from_be_u64 (n : Nat) (h : n < 2 ^ 64) : from_be_bytes (u64_be_bytes n) = n := by
  simp only [u64_be_bytes, from_be_bytes, List.foldl]
  omega

theorem from_be_u32 (n : Nat) (h : n < 2 ^ 32) : from_be_bytes (u32_be_bytes n) = n := by
  simp only [u32_be_bytes, from_be_bytes, List.foldl]
  omega

/-- C9: the `RecordMetadata` byte codec round-trips. -/
theorem C9_metadata_codec_roundtrip (m : RecordMetadata)
    (h1 : m.id < 2 ^ 64) (h2 : m.version < 2 ^ 32)
    (h3 : ∀ op, m.insert_operation_id = some op → op < 2 ^ 64) :
    m.encode.length = 21 ∧
    m.encode.take 8 = u64_be_bytes m.id ∧
    (m.encode.drop 8).take 4 = u32_be_bytes m.version ∧
    m.encode.getD 12 0 = (match m.insert_operation_id with | some _ => 1 | none => 0) ∧
    (∀ op, m.insert_operation_id = some op → m.encode.drop 13 = u64_be_bytes op) ∧
    RecordMetadata.decode m.encode = some m ∧
    (∀ bytes : List Nat, bytes.length = 21 → (RecordMetadata.decode bytes).isSome) := by
  have htotal : ∀ bytes : List Nat, bytes.length = 21 → (RecordMetadata.decode bytes).isSome := by
    intro bytes hb
    simp [RecordMetadata.decode, hb]
  obtain ⟨id, version, iop⟩ := m
  dsimp only at h1 h2 h3
  rcases iop with _ | op
  · refine ⟨rfl, rfl, rfl, rfl, ?_, ?_, htotal⟩
    · intro op hop
      simp at hop
    · have hdec : RecordMetadata.decode
          (RecordMetadata.encode ⟨id, version, none⟩) =
          some ⟨from_be_bytes (u64_be_bytes id), from_be_bytes (u32_be_bytes version), none⟩ :=
        rfl
      rw [hdec, from_be_u64 id h1, from_be_u32 version h2]
  · have hop : op < 2 ^ 64 := h3 op rfl
    refine ⟨rfl, rfl, rfl, rfl, ?_, ?_, htotal⟩
    · intro op2 hop2
      injection hop2 with h
      subst h
      rfl
    · have hdec : RecordMetadata.decode
          (RecordMetadata.encode ⟨id, version, some op⟩) =
          some ⟨from_be_bytes (u64_be_bytes id), from_be_bytes (u32_be_bytes version),
                some (from_be_bytes (u64_be_bytes op))⟩ :=
        rfl
      rw [hdec, from_be_u64 id h1, from_be_u32 version h2, from_be_u64 op hop]

/-- C1, counterexample: a double insert of the same primary key fails with
`PrimaryKeyExists`, but the next-operation-id counter is advanced within the
transaction, so the four sub-stores are not all unchanged. -/
theorem C1_counterexample :
    (((MainEnvironment.empty.insert ⟨[1], none⟩ ⟨[0]⟩).2.insert ⟨[1], none⟩ ⟨[0]⟩).1 =
      Outcome.error CacheError.PrimaryKeyExists) ∧
    ((MainEnvironment.empty.insert ⟨[1], none⟩ ⟨[0]⟩).2.insert
      ⟨[1], none⟩ ⟨[0]⟩).2.next_operation_id = 2 ∧
    (MainEnvironment.empty.insert ⟨[1], none⟩ ⟨[0]⟩).2.next_operation_id = 1 := by
  decide

/-- C1 (amended): inserting a primary key whose metadata is live fails with
`PrimaryKeyExists`; the metadata map, present-op set and operation log are
unchanged, but the next-operation-id counter is advanced by one. -/
theorem C1_insert_existing_live_key {env : MainEnvironment} {r : Record} {schema : Schema}
    {m : RecordMetadata}
    (hk : schema.is_append_only = false)
    (hm : alistGet env.primary_key_to_metadata
        (get_primary_key schema.primary_index r.values) = some m)
    (hlive : m.insert_operation_id.isSome) :
    env.insert r schema =
      (.error .PrimaryKeyExists,
       { env with next_operation_id := env.next_operation_id + 1 }) :=
  insert_live_exists hk hm hlive

theorem C1_insert_existing_live_key_witness :
    (⟨[([1], ⟨0, 1, some 0⟩)], [0], 1, [(0, Operation.Insert 0 ⟨[1], some 1⟩)]⟩ :
        MainEnvironment).insert ⟨[1], none⟩ ⟨[0]⟩ =
      (.error .PrimaryKeyExists,
       ⟨[([1], ⟨0, 1, some 0⟩)], [0], 1 + 1, [(0, Operation.Insert 0 ⟨[1], some 1⟩)]⟩) :=
  C1_insert_existing_live_key (m := ⟨0, 1, some 0⟩) rfl rfl rfl

/-- C2: a successful keyed insert assigns the record id and version from the
metadata lookup (fresh id and version 1 when absent; the stored id and
incremented version when tombstoned), sets the record version, overwrites
the metadata as live with the new operation id, adds the operation id to
the present-op set, and logs the insert at the new operation id. -/
theorem C2_insert_keyed_success (env : MainEnvironment) (r : Record) (schema : Schema)
    {env' : MainEnvironment} {r' : Record} {record_id operation_id : Nat}
    (hk : schema.is_append_only = false)
    (h : env.insert r schema = (.ok ((record_id, operation_id), r'), env')) :
    ∃ version : Nat,
      (match alistGet env.primary_key_to_metadata
          (get_primary_key schema.primary_index r.values) with
       | none => record_id = env.primary_key_to_metadata.length ∧ version = 1
       | some m => m.insert_operation_id = none ∧ record_id = m.id ∧ version = m.version + 1) ∧
      r'.version = some version ∧
      alistGet env'.primary_key_to_metadata (get_primary_key schema.primary_index r.values) =
        some { id := record_id, version := version, insert_operation_id := some operation_id } ∧
      operation_id ∈ env'.present_operation_ids ∧
      alistGet env'.operation_id_to_operation operation_id =
        some (Operation.Insert record_id r') := by
  obtain ⟨v, hoid, hmatch, hr', hl, hp, c1, c2, c3, c4⟩ := insert_keyed_ok hk h
  subst hoid
  subst hr'
  refine ⟨v, hmatch, rfl, ?_, ?_, ?_⟩
  · rw [c2]
    exact alistGet_put_self _ _ _
  · rw [c3]
    simp
  · rw [c4, alistGet_append_right _ hl, alistGet_singleton]
    simp

theorem C2_insert_keyed_success_witness :
    ∃ version : Nat,
      (0 = 0 ∧ version = 1) ∧
      (some 1 : Option Nat) = some version ∧
      alistGet [([1], RecordMetadata.mk 0 1 (some 0))] (get_primary_key [0] [1]) =
        some { id := 0, version := version, insert_operation_id := some 0 } ∧
      0 ∈ [0] ∧
      alistGet [(0, Operation.Insert 0 ⟨[1], some 1⟩)] 0 =
        some (Operation.Insert 0 (⟨[1], some 1⟩ : Record)) := by
  exact C2_insert_keyed_success .empty ⟨[1], none⟩ ⟨[0]⟩ rfl rfl

/-- C3: record ids are stable across any sequence of successful inserts and
deletes: once metadata exists for a primary key, its id never changes. -/
theorem C3_record_id_stable (schema : Schema) (ops more : List CacheOp)
    (pk : List FieldValue) {env env' : MainEnvironment} {m m' : RecordMetadata}
    (hk : schema.is_append_only = false)
    (h1 : runOps schema MainEnvironment.empty ops = some env)
    (h2 : runOps schema env more = some env')
    (hm : alistGet env.primary_key_to_metadata pk = some m)
    (hm' : alistGet env'.primary_key_to_metadata pk = some m') :
    m'.id = m.id := by
  obtain ⟨m2, hm2, hid⟩ := runOps_id_stable h2 hm
  rw [hm2] at hm'
  injection hm' with e
  rw [← e]
  exact hid

theorem C3_record_id_stable_witness :
    (RecordMetadata.mk 0 2 (some 2)).id = (RecordMetadata.mk 0 1 (some 0)).id :=
  C3_record_id_stable ⟨[0]⟩ [.insertOp ⟨[1], none⟩]
    [.deleteOp [1], .insertOp ⟨[1], none⟩] [1]
    rfl rfl rfl rfl rfl

/-- C4: after N successful operations from a fresh environment, the
next-operation-id counter equals N and the log has exactly N entries with
keys 0..N-1. -/
theorem C4_operation_ids_dense (schema : Schema) (ops : List CacheOp) {env : MainEnvironment}
    (h : runOps schema MainEnvironment.empty ops = some env) :
    env.next_operation_id = ops.length ∧
    env.operation_id_to_operation.map Prod.fst = List.range ops.length ∧
    env.operation_id_to_operation.length = ops.length := by
  obtain ⟨inv, hc⟩ := EnvInv_runOps EnvInv_empty h
  have h0 : MainEnvironment.empty.next_operation_id = 0 := rfl
  rw [h0] at hc
  have hcnt : env.next_operation_id = ops.length := by omega
  refine ⟨hcnt, ?_, ?_⟩
  · rw [inv.log_keys, hcnt]
  · have hlen := congrArg List.length inv.log_keys
    simp only [List.length_map, List.length_range] at hlen
    rw [hlen, hcnt]

theorem C4_operation_ids_dense_witness :
    (3 : Nat) = 3 ∧ ([0, 1, 2] : List Nat) = List.range 3 ∧ (3 : Nat) = 3 :=
  C4_operation_ids_dense ⟨[0]⟩
    [.insertOp ⟨[1], none⟩, .insertOp ⟨[2], none⟩, .deleteOp [1]] rfl

/-- C5: deleting a live primary key overwrites its metadata as tombstoned
with the version unchanged, removes its insert operation id from the
present-op set, logs a Delete entry under a freshly allocated operation id,
and returns the version and the insert operation id; deleting an unknown or
tombstoned primary key fails with `PrimaryKeyNotFound` and changes nothing,
in particular the counter is not advanced. -/
theorem C5_delete_spec (schema : Schema) (ops : List CacheOp) (pk : List FieldValue)
    {env : MainEnvironment}
    (hreach : runOps schema MainEnvironment.empty ops = some env) :
    (∀ rid ver op,
      alistGet env.primary_key_to_metadata pk =
        some { id := rid, version := ver, insert_operation_id := some op } →
      env.delete pk =
        (.ok (ver, op),
         { env with
            next_operation_id := env.next_operation_id + 1
            primary_key_to_metadata :=
              alistPut env.primary_key_to_metadata pk
                { id := rid, version := ver, insert_operation_id := none }
            present_operation_ids := env.present_operation_ids.erase op
            operation_id_to_operation :=
              env.operation_id_to_operation ++
                [(env.next_operation_id, Operation.Delete op)] })) ∧
    ((match alistGet env.primary_key_to_metadata pk with
      | none => True
      | some m => m.insert_operation_id = none) →
      env.delete pk = (.error .PrimaryKeyNotFound, env)) := by
  obtain ⟨inv, _⟩ := EnvInv_runOps EnvInv_empty hreach
  constructor
  · intro rid ver op hm
    exact delete_ok_of_live hm (inv.live_present _ _ hm op rfl) (EnvInv_log_fresh inv)
  · exact delete_not_found

theorem C5_delete_spec_witness :
    ((⟨[([1], ⟨0, 1, some 0⟩)], [0], 1, [(0, Operation.Insert 0 ⟨[1], some 1⟩)]⟩ :
        MainEnvironment).delete [1] =
      (.ok (1, 0),
       ⟨[([1], ⟨0, 1, none⟩)], [], 2,
        [(0, Operation.Insert 0 ⟨[1], some 1⟩), (1, Operation.Delete 0)]⟩)) ∧
    ((⟨[([1], ⟨0, 1, some 0⟩)], [0], 1, [(0, Operation.Insert 0 ⟨[1], some 1⟩)]⟩ :
        MainEnvironment).delete [2] =
      (.error .PrimaryKeyNotFound,
       ⟨[([1], ⟨0, 1, some 0⟩)], [0], 1, [(0, Operation.Insert 0 ⟨[1], some 1⟩)]⟩)) :=
  ⟨(C5_delete_spec ⟨[0]⟩ [.insertOp ⟨[1], none⟩] [1] rfl).1 0 1 0 rfl,
   (C5_delete_spec ⟨[0]⟩ [.insertOp ⟨[1], none⟩] [2] rfl).2 True.intro⟩

/-- C6: in keyed mode, `get_by_operation_id` returns `none` exactly on
operation ids outside the present-op set, and returns the logged Insert
entry for every operation id in the present-op set. -/
theorem C6_get_by_operation_id_keyed (schema : Schema) (ops : List CacheOp) (op : Nat)
    {env : MainEnvironment}
    (hk : schema.is_append_only = false)
    (h : runOps schema MainEnvironment.empty ops = some env) :
    (op ∉ env.present_operation_ids → env.get_by_operation_id op false = .ok none) ∧
    (op ∈ env.present_operation_ids → ∃ rid r,
      alistGet env.operation_id_to_operation op = some (Operation.Insert rid r) ∧
      env.get_by_operation_id op false = .ok (some ⟨rid, r⟩)) := by
  obtain ⟨inv, _⟩ := EnvInv_runOps EnvInv_empty h
  constructor
  · intro hnot
    simp [MainEnvironment.get_by_operation_id, hnot]
  · intro hmem
    obtain ⟨rid, r, hlook⟩ := inv.present_insert op hmem
    refine ⟨rid, r, hlook, ?_⟩
    simp [MainEnvironment.get_by_operation_id, hmem,
      MainEnvironment.get_by_operation_id_unchecked, hlook]

theorem C6_get_by_operation_id_keyed_witness :
    ((⟨[([1], ⟨0, 1, none⟩), ([2], ⟨1, 1, some 1⟩)], [1], 3,
        [(0, Operation.Insert 0 ⟨[1], some 1⟩), (1, Operation.Insert 1 ⟨[2], some 1⟩),
         (2, Operation.Delete 0)]⟩ : MainEnvironment).get_by_operation_id 0 false =
      .ok none) ∧
    (∃ rid r,
      alistGet [(0, Operation.Insert 0 (⟨[1], some 1⟩ : Record)),
        (1, Operation.Insert 1 ⟨[2], some 1⟩), (2, Operation.Delete 0)] 1 =
        some (Operation.Insert rid r) ∧
      (⟨[([1], ⟨0, 1, none⟩), ([2], ⟨1, 1, some 1⟩)], [1], 3,
        [(0, Operation.Insert 0 ⟨[1], some 1⟩), (1, Operation.Insert 1 ⟨[2], some 1⟩),
         (2, Operation.Delete 0)]⟩ : MainEnvironment).get_by_operation_id 1 false =
        .ok (some ⟨rid, r⟩)) :=
  ⟨(C6_get_by_operation_id_keyed ⟨[0]⟩
      [.insertOp ⟨[1], none⟩, .insertOp ⟨[2], none⟩, .deleteOp [1]] 0
      rfl rfl).1 (by decide),
   (C6_get_by_operation_id_keyed ⟨[0]⟩
      [.insertOp ⟨[1], none⟩, .insertOp ⟨[2], none⟩, .deleteOp [1]] 1
      rfl rfl).2 (by decide)⟩

/-- C7: after a successful keyed insert of `r`, `get` on the record's
primary key returns the record (structurally `r` with its version set to
the assigned version) with the assigned record id, and
`get_by_operation_id` on the returned operation id returns the same. -/
theorem C7_insert_get_roundtrip (env : MainEnvironment) (r : Record) (schema : Schema)
    {env' : MainEnvironment} {r' : Record} {record_id operation_id : Nat}
    (hk : schema.is_append_only = false)
    (h : env.insert r schema = (.ok ((record_id, operation_id), r'), env')) :
    ∃ version : Nat,
      r' = { r with version := some version } ∧
      env'.get (get_primary_key schema.primary_index r.values) = .ok ⟨record_id, r'⟩ ∧
      env'.get_by_operation_id operation_id false = .ok (some ⟨record_id, r'⟩) := by
  obtain ⟨v, hoid, hmatch, hr', hl, hp, c1, c2, c3, c4⟩ := insert_keyed_ok hk h
  subst hoid
  have hlog : alistGet env'.operation_id_to_operation env.next_operation_id =
      some (Operation.Insert record_id r') := by
    rw [c4, alistGet_append_right _ hl, alistGet_singleton]
    simp
  have hmem : env.next_operation_id ∈ env'.present_operation_ids := by
    rw [c3]
    simp
  refine ⟨v, hr', ?_, ?_⟩
  · simp [MainEnvironment.get, c2, alistGet_put_self,
      MainEnvironment.get_by_operation_id_unchecked, hlog]
  · simp [MainEnvironment.get_by_operation_id, hmem,
      MainEnvironment.get_by_operation_id_unchecked, hlog]

theorem C7_insert_get_roundtrip_witness :
    ∃ version : Nat,
      (⟨[1], some 1⟩ : Record) = ⟨[1], some version⟩ ∧
      (⟨[([1], ⟨0, 1, some 0⟩)], [0], 1, [(0, Operation.Insert 0 ⟨[1], some 1⟩)]⟩ :
          MainEnvironment).get (get_primary_key [0] [1]) =
        .ok ⟨0, ⟨[1], some 1⟩⟩ ∧
      (⟨[([1], ⟨0, 1, some 0⟩)], [0], 1, [(0, Operation.Insert 0 ⟨[1], some 1⟩)]⟩ :
          MainEnvironment).get_by_operation_id 0 false =
        .ok (some ⟨0, ⟨[1], some 1⟩⟩) :=
  C7_insert_get_roundtrip .empty ⟨[1], none⟩ ⟨[0]⟩ rfl rfl

/-- C8: under an append-only schema, every successful run leaves the
primary-key map and present-op set empty, logs only Insert entries whose
record id equals their operation id and whose record has version 1, and
the next insert returns `(N, N)` where `N` is the number of operations so
far. -/
theorem C8_append_only_run (schema : Schema) (ops : List CacheOp) {env : MainEnvironment}
    (hk : schema.is_append_only = true)
    (h : runOps schema MainEnvironment.empty ops = some env) :
    env.primary_key_to_metadata = [] ∧
    env.present_operation_ids = [] ∧
    (∀ p ∈ env.operation_id_to_operation, ∃ rec,
      p.2 = Operation.Insert p.1 rec ∧ rec.version = some 1) ∧
    env.next_operation_id = ops.length ∧
    (∀ r : Record, env.insert r schema =
      (.ok ((ops.length, ops.length), { r with version := some 1 }),
       { env with
          next_operation_id := ops.length + 1
          operation_id_to_operation :=
            env.operation_id_to_operation ++
              [(ops.length, Operation.Insert ops.length { r with version := some 1 })] })) := by
  obtain ⟨inv, hc⟩ := EnvInv_runOps EnvInv_empty h
  have h0 : MainEnvironment.empty.next_operation_id = 0 := rfl
  rw [h0] at hc
  have hcnt : env.next_operation_id = ops.length := by omega
  obtain ⟨hpk, hpr, hlog⟩ := runOps_append_only hk h rfl rfl
    (by intro p hp; simp [MainEnvironment.empty] at hp)
  refine ⟨hpk, hpr, hlog, hcnt, ?_⟩
  intro r
  have hfresh := insert_append_only_of_fresh r hk (EnvInv_log_fresh inv)
  rw [hcnt] at hfresh
  exact hfresh

theorem C8_append_only_run_witness :
    ([] : List (List FieldValue × RecordMetadata)) = [] ∧
    ([] : List Nat) = [] ∧
    (∀ p ∈ [(0, Operation.Insert 0 (⟨[7], some 1⟩ : Record)),
            (1, Operation.Insert 1 (⟨[8], some 1⟩ : Record))], ∃ rec,
      (p : Nat × Operation).2 = Operation.Insert p.1 rec ∧ rec.version = some 1) ∧
    (2 : Nat) = 2 ∧
    (∀ r : Record,
      (⟨[], [], 2, [(0, Operation.Insert 0 ⟨[7], some 1⟩),
          (1, Operation.Insert 1 ⟨[8], some 1⟩)]⟩ : MainEnvironment).insert r ⟨[]⟩ =
        (.ok ((2, 2), { r with version := some 1 }),
         ⟨[], [], 2 + 1,
          [(0, Operation.Insert 0 ⟨[7], some 1⟩), (1, Operation.Insert 1 ⟨[8], some 1⟩),
           (2, Operation.Insert 2 { r with version := some 1 })]⟩)) :=
  C8_append_only_run ⟨[]⟩ [.insertOp ⟨[7], none⟩, .insertOp ⟨[8], none⟩] rfl rfl

/-- C10: in append-only mode, `get_by_operation_id` on an operation id with
no log entry skips the present-op-set check and hits the fatal
"Inconsistent state" panic branch instead of returning `None` or an
error. -/
theorem C10_append_only_missing_op_fatal {env : MainEnvironment} {op : Nat}
    (h : alistGet env.operation_id_to_operation op = none) :
    env.get_by_operation_id op true = .fatal := by
  simp [MainEnvironment.get_by_operation_id, MainEnvironment.get_by_operation_id_unchecked, h]

theorem C10_append_only_missing_op_fatal_witness :
    MainEnvironment.empty.get_by_operation_id 5 true = .fatal :=
  C10_append_only_missing_op_fatal rfl

theorem C9_metadata_codec_roundtrip_witness :
    (RecordMetadata.encode ⟨5, 2, some 7⟩).length = 21 ∧
    (RecordMetadata.encode ⟨5, 2, some 7⟩).take 8 = u64_be_bytes 5 ∧
    ((RecordMetadata.encode ⟨5, 2, some 7⟩).drop 8).take 4 = u32_be_bytes 2 ∧
    (RecordMetadata.encode ⟨5, 2, some 7⟩).getD 12 0 = 1 ∧
    (∀ op, (some 7 : Option Nat) = some op →
      (RecordMetadata.encode ⟨5, 2, some 7⟩).drop 13 = u64_be_bytes op) ∧
    RecordMetadata.decode (RecordMetadata.encode ⟨5, 2, some 7⟩) = some ⟨5, 2, some 7⟩ ∧
    (∀ bytes : List Nat, bytes.length = 21 → (RecordMetadata.decode bytes).isSome) :=
  C9_metadata_codec_roundtrip ⟨5, 2, some 7⟩ (by decide) (by decide)
    (fun op hop => by cases hop; decide)
